import Mathlib

/-!
Verification development for the organizer3 image-pack pipeline.

The Python sources under `src/core/` are shallowly embedded:
* `metadata.py` (extract_png, embed, validate_metadata_size, create_character_list),
* `processor.py` (_discover_packs, the ZIP-stage branch of _process_single_image),
* `watermark.py` (_calculate_position),
* `auto_mosaic.py` (process_image, process_image_with_retry, process_pack).

JSON dictionaries are modelled by an explicit `Json` value type together with a
compact serializer (`dumpVal`, the model of Python's
`json.dumps(..., ensure_ascii=False, separators=(',', ':'))` on the fragment
without floats) and a recursive-descent parser (`loads`, the model of
`json.loads` on the compact documents the codec produces).  Image files are
modelled by records carrying the observable container state (PNG Comment text
chunk, the EXIF ImageDescription as seen by each of the three lookup methods of
`extract_png`), and the mosaic driver is modelled as an explicit state machine
whose environment records the outcome of each external-service invocation.
-/

namespace Organizer

/-- Left brace character, written via its code point. -/
def lbrace : Char := Char.ofNat 123

/-- Right brace character, written via its code point. -/
def rbrace : Char := Char.ofNat 125

mutual

/-- JSON values (the float-free fragment; Python dicts keep insertion order,
so objects are ordered association lists). -/
inductive Json where
  | null : Json
  | bool (b : Bool) : Json
  | num (n : Int) : Json
  | str (s : List Char) : Json
  | arr (xs : JsonList) : Json
  | obj (kvs : JsonObj) : Json

/-- Ordered list of JSON values (element list of a JSON array). -/
inductive JsonList where
  | nil : JsonList
  | cons (hd : Json) (tl : JsonList) : JsonList

/-- Ordered key/value list of a JSON object. -/
inductive JsonObj where
  | nil : JsonObj
  | cons (k : List Char) (v : Json) (tl : JsonObj) : JsonObj

end

/-- Decimal digit character for a value below 10. -/
def digitChar (d : Nat) : Char := Char.ofNat (48 + d)

/-- Decimal representation of a natural number, most significant digit first
(models Python's rendering of non-negative ints in `json.dumps`). -/
def natToChars (n : Nat) : List Char :=
  if n < 10 then [digitChar n]
  else natToChars (n / 10) ++ [digitChar (n % 10)]
termination_by n
decreasing_by exact Nat.div_lt_self (by omega) (by omega)

/-- Decimal representation of an integer (models Python's int rendering). -/
def intToChars (n : Int) : List Char :=
  if n < 0 then '-' :: natToChars n.natAbs else natToChars n.natAbs

/-- Lower-case hexadecimal digit for a value below 16. -/
def hexDigit (d : Nat) : Char :=
  if d < 10 then Char.ofNat (48 + d) else Char.ofNat (87 + d)

/-- Escaping of one character inside a JSON string, as performed by
`json.dumps(..., ensure_ascii=False)`: quote, backslash and the control
characters are escaped, everything else is emitted raw. -/
def escChar (c : Char) : List Char :=
  if c = '"' then ['\\', '"']
  else if c = '\\' then ['\\', '\\']
  else if c = '\n' then ['\\', 'n']
  else if c = '\r' then ['\\', 'r']
  else if c = '\t' then ['\\', 't']
  else if c.toNat = 8 then ['\\', 'b']
  else if c.toNat = 12 then ['\\', 'f']
  else if c.toNat < 32 then
    ['\\', 'u', '0', '0', hexDigit (c.toNat / 16), hexDigit (c.toNat % 16)]
  else [c]

/-- Escaping of a whole JSON string body. -/
def escStr (s : List Char) : List Char := s.flatMap escChar

/-- The characters of the `null` keyword. -/
def nullChars : List Char := ['n', 'u', 'l', 'l']

/-- The characters of the `true` keyword. -/
def trueChars : List Char := ['t', 'r', 'u', 'e']

/-- The characters of the `false` keyword. -/
def falseChars : List Char := ['f', 'a', 'l', 's', 'e']

mutual

/-- Compact serialization of a JSON value: the model of
`json.dumps(metadata, ensure_ascii=False, separators=(',', ':'))`. -/
def dumpVal : Json → List Char
  | .null => nullChars
  | .bool true => trueChars
  | .bool false => falseChars
  | .num n => intToChars n
  | .str s => '"' :: (escStr s ++ ['"'])
  | .arr xs => '[' :: (dumpList xs ++ [']'])
  | .obj kvs => lbrace :: (dumpObj kvs ++ [rbrace])
termination_by structural v => v

/-- Compact serialization of array elements, comma separated. -/
def dumpList : JsonList → List Char
  | .nil => []
  | .cons v .nil => dumpVal v
  | .cons v (.cons v' tl) => dumpVal v ++ ',' :: dumpList (.cons v' tl)
termination_by structural xs => xs

/-- Compact serialization of object entries, `"key":value`, comma separated. -/
def dumpObj : JsonObj → List Char
  | .nil => []
  | .cons k v .nil => '"' :: (escStr k ++ '"' :: ':' :: dumpVal v)
  | .cons k v (.cons k' v' tl) =>
      ('"' :: (escStr k ++ '"' :: ':' :: dumpVal v)) ++
        ',' :: dumpObj (.cons k' v' tl)
termination_by structural kvs => kvs

end

/-- UTF-8 byte width of one scalar value (what `str.encode('utf-8')`
contributes per character). -/
def utf8Width (c : Char) : Nat :=
  if c.toNat < 128 then 1
  else if c.toNat < 2048 then 2
  else if c.toNat < 65536 then 3
  else 4

/-- UTF-8 byte length of a character list: models `len(s.encode('utf-8'))`. -/
def utf8Len (s : List Char) : Nat := (s.map utf8Width).sum

/-- Hexadecimal digit test (as accepted in a `\u` escape). -/
def isHex (c : Char) : Bool :=
  c.isDigit || ('a' ≤ c && c ≤ 'f') || ('A' ≤ c && c ≤ 'F')

/-- Value of a hexadecimal digit character. -/
def hexVal (c : Char) : Nat :=
  if c.isDigit then c.toNat - 48
  else if 'a' ≤ c && c ≤ 'f' then c.toNat - 87
  else c.toNat - 55

/-- String-body parser: consumes characters up to the closing quote,
undoing the escapes of `escChar` (and the other standard JSON escapes);
an unescaped control character is rejected, as in Python's strict
`json.loads`.  Returns the decoded body and the rest of the input. -/
def parseStrAux : List Char → Option (List Char × List Char)
  | [] => none
  | c :: rest =>
    if c = '"' then some ([], rest)
    else if c = '\\' then
      match rest with
      | [] => none
      | e :: rest' =>
        if e = '"' then (parseStrAux rest').map (fun p => ('"' :: p.1, p.2))
        else if e = '\\' then (parseStrAux rest').map (fun p => ('\\' :: p.1, p.2))
        else if e = '/' then (parseStrAux rest').map (fun p => ('/' :: p.1, p.2))
        else if e = 'b' then (parseStrAux rest').map (fun p => (Char.ofNat 8 :: p.1, p.2))
        else if e = 'f' then (parseStrAux rest').map (fun p => (Char.ofNat 12 :: p.1, p.2))
        else if e = 'n' then (parseStrAux rest').map (fun p => ('\n' :: p.1, p.2))
        else if e = 'r' then (parseStrAux rest').map (fun p => ('\r' :: p.1, p.2))
        else if e = 't' then (parseStrAux rest').map (fun p => ('\t' :: p.1, p.2))
        else if e = 'u' then
          match rest' with
          | h1 :: h2 :: h3 :: h4 :: rest'' =>
            if isHex h1 && isHex h2 && isHex h3 && isHex h4 then
              (parseStrAux rest'').map (fun p =>
                (Char.ofNat (hexVal h1 * 4096 + hexVal h2 * 256 + hexVal h3 * 16 + hexVal h4) :: p.1,
                 p.2))
            else none
          | _ => none
        else none
    else if c.toNat < 32 then none
    else (parseStrAux rest).map (fun p => (c :: p.1, p.2))

/-- Digit-run accumulator of the number parser. -/
def parseDigitsAux (acc : Nat) : List Char → Nat × List Char
  | [] => (acc, [])
  | c :: rest =>
    if c.isDigit then parseDigitsAux (10 * acc + (c.toNat - 48)) rest
    else (acc, c :: rest)

/-- Integer parser: optional minus sign followed by a digit run. -/
def parseNumber : List Char → Option (Json × List Char)
  | [] => none
  | c :: rest =>
    if c = '-' then
      match rest with
      | [] => none
      | c' :: rest' =>
        if c'.isDigit then
          let p := parseDigitsAux 0 (c' :: rest')
          some (.num (-(p.1 : Int)), p.2)
        else none
    else if c.isDigit then
      let p := parseDigitsAux 0 (c :: rest)
      some (.num (p.1 : Int), p.2)
    else none

mutual

/-- Fuel-indexed recursive-descent JSON value parser. -/
def parseVal : Nat → List Char → Option (Json × List Char)
  | 0, _ => none
  | _ + 1, [] => none
  | f + 1, c :: cs =>
    if c = 'n' then
      match cs with
      | 'u' :: 'l' :: 'l' :: rest => some (.null, rest)
      | _ => none
    else if c = 't' then
      match cs with
      | 'r' :: 'u' :: 'e' :: rest => some (.bool true, rest)
      | _ => none
    else if c = 'f' then
      match cs with
      | 'a' :: 'l' :: 's' :: 'e' :: rest => some (.bool false, rest)
      | _ => none
    else if c = '"' then
      (parseStrAux cs).map (fun p => (.str p.1, p.2))
    else if c = '[' then
      match cs with
      | [] => none
      | c' :: rest' =>
        if c' = ']' then some (.arr .nil, rest')
        else (parseArrItems f (c' :: rest')).map (fun p => (.arr p.1, p.2))
    else if c = lbrace then
      match cs with
      | [] => none
      | c' :: rest' =>
        if c' = rbrace then some (.obj .nil, rest')
        else (parseObjItems f (c' :: rest')).map (fun p => (.obj p.1, p.2))
    else parseNumber (c :: cs)
termination_by structural f => f

/-- Parser for one or more comma-separated array elements up to `]`. -/
def parseArrItems : Nat → List Char → Option (JsonList × List Char)
  | 0, _ => none
  | f + 1, cs =>
    match parseVal f cs with
    | none => none
    | some (v, rest) =>
      match rest with
      | [] => none
      | d :: rest' =>
        if d = ',' then
          (parseArrItems f rest').map (fun p => (.cons v p.1, p.2))
        else if d = ']' then some (.cons v .nil, rest')
        else none
termination_by structural f => f

/-- Parser for one or more comma-separated `"key":value` entries up to the
closing brace. -/
def parseObjItems : Nat → List Char → Option (JsonObj × List Char)
  | 0, _ => none
  | f + 1, cs =>
    match cs with
    | [] => none
    | c :: cs' =>
      if c = '"' then
        match parseStrAux cs' with
        | none => none
        | some (k, rest) =>
          match rest with
          | ':' :: rest' =>
            match parseVal f rest' with
            | none => none
            | some (v, rest'') =>
              match rest'' with
              | [] => none
              | d :: rest''' =>
                if d = ',' then
                  (parseObjItems f rest''').map (fun p => (.cons k v p.1, p.2))
                else if d = rbrace then some (.cons k v .nil, rest''')
                else none
          | _ => none
      else none
termination_by structural f => f

end

/-- Model of `json.loads` on the compact documents produced by `dumpVal`:
the whole input must parse as one JSON value.  (Surrounding whitespace and
floats, which the codec never produces, are outside the model.) -/
def loads (cs : List Char) : Option Json :=
  match parseVal (cs.length + 1) cs with
  | some (v, []) => some v
  | _ => none

/-! ## Metadata codec (src/core/metadata.py) -/

/-- Image container format as reported by `img.format.upper()`. -/
inductive ImgFormat where
  | png
  | jpeg
  | webp
deriving DecidableEq

/-- Observable metadata state of an image file as seen by `extract_png`.
The empty list models Python's falsy default `""` for a missing value:
`comment` is the PNG `Comment` text chunk; `piexifDesc` is what method 1
(piexif over `img.info['exif']`) yields, `getexifDesc` what method 2
(`img.getexif()[270]`) yields, `legacyDesc` what method 3
(`img._getexif()[270]`, when the attribute exists) yields; `payload` stands
for the pixel data; `readable` is whether `Image.open` succeeds. -/
structure ImageFile where
  format : ImgFormat
  comment : List Char
  piexifDesc : List Char
  getexifDesc : List Char
  legacyDesc : List Char
  payload : Nat
  readable : Bool
deriving DecidableEq

/-- PNG comment lookup of `extract_png`: the `Comment` text chunk is read
only when the format is PNG. -/
def pngCommentOf (img : ImageFile) : List Char :=
  if img.format = .png then img.comment else []

/-- The EXIF ImageDescription cascade of `extract_png`: method 1 (piexif)
for every format; method 2 (`getexif`) only when the format is JPEG/JPG and
method 1 produced nothing; method 3 (`_getexif`) when both earlier methods
produced nothing. -/
def exifDescriptionOf (img : ImageFile) : List Char :=
  let d1 := img.piexifDesc
  if !d1.isEmpty then d1
  else
    let d2 := if img.format = .jpeg then img.getexifDesc else []
    if !d2.isEmpty then d2
    else img.legacyDesc

/-- The literal two-character source used when neither field is present. -/
def emptyObjSrc : List Char := [lbrace, rbrace]

/-- The string handed to `json.loads`:
`exif_description or png_comment or "{}"` (first truthy wins). -/
def metadataSource (img : ImageFile) : List Char :=
  let e := exifDescriptionOf img
  if !e.isEmpty then e
  else
    let c := pngCommentOf img
    if !c.isEmpty then c else emptyObjSrc

/-- Result of `extract_png`.  `fallback` is the raw-fallback dictionary built
when JSON parsing fails; its `_parse_error` entry (the Python exception text)
is present by construction of this constructor and not modelled further.
`error` models the `MetadataError` raised when the container is unreadable. -/
inductive ExtractResult where
  | parsed (v : Json)
  | fallback (rawComment : Option (List Char)) (rawExifDescription : Option (List Char))
      (metadataSrc : Option (List Char))
  | error

/-- Python's `x if x else None` on a possibly empty string. -/
def noneIfEmpty (s : List Char) : Option (List Char) :=
  if s.isEmpty then none else some s

/-- Model of `extract_png` (metadata.py lines 21-95). -/
def extract_png (img : ImageFile) : ExtractResult :=
  if img.readable then
    let src := metadataSource img
    match loads src with
    | some v => .parsed v
    | none =>
        .fallback (noneIfEmpty (pngCommentOf img)) (noneIfEmpty (exifDescriptionOf img))
          (if src = emptyObjSrc then none else some src)
  else .error

/-- File-name suffix as classified by `embed` (`path.suffix.lower()`). -/
inductive Suffix where
  | png
  | jpg
  | jpeg
  | webp
  | other
deriving DecidableEq

/-- Failure modes of `embed`, all surfacing as `MetadataError`:
`sizeLimit` is the 60,000-byte ceiling; `saveFailure` models `Image.open`
or save failing inside `_embed_png`/`_embed_exif`; `unsupported` is an
unrecognized suffix. -/
inductive EmbedError where
  | sizeLimit
  | saveFailure
  | unsupported
deriving DecidableEq

/-- File produced by `_embed_png`: the JSON string becomes the `Comment`
text chunk; no EXIF payload is written (PIL's PNG save without an `exif`
argument emits none), prior text chunks are not carried over. -/
def pngSaved (img : ImageFile) (js : List Char) : ImageFile :=
  { format := .png, comment := js, piexifDesc := [], getexifDesc := [],
    legacyDesc := [], payload := img.payload, readable := true }

/-- File produced by `_embed_exif`: the JSON string becomes the EXIF
ImageDescription, visible to all three lookup methods; no PNG comment. -/
def exifSaved (img : ImageFile) (fmt : ImgFormat) (js : List Char) : ImageFile :=
  { format := fmt, comment := [], piexifDesc := js, getexifDesc := js,
    legacyDesc := js, payload := img.payload, readable := true }

/-- One `_embed_exif` routing step shared by the jpg/jpeg/webp cases. -/
def embedExifAt (fmt : ImgFormat) (file : Option ImageFile) (js : List Char) :
    Option EmbedError × Option ImageFile :=
  match file with
  | some f =>
    if f.readable then (none, some (exifSaved f fmt js)) else (some .saveFailure, some f)
  | none => (some .saveFailure, none)

/-- Model of `embed` (metadata.py lines 128-157).  The state is the file at
the target path (`none` = no file).  An error outcome leaves the file
untouched: the size check happens before any write, and a failed open/save
does not modify the target. -/
def embed (suffix : Suffix) (file : Option ImageFile) (metadata : JsonObj) :
    Option EmbedError × Option ImageFile :=
  match metadata with
  | .nil => (none, file)
  | .cons _ _ _ =>
    let js := dumpVal (.obj metadata)
    if utf8Len js > 60000 then (some .sizeLimit, file)
    else
      match suffix with
      | .png =>
        match file with
        | some f =>
          if f.readable then (none, some (pngSaved f js)) else (some .saveFailure, some f)
        | none => (some .saveFailure, none)
      | .jpg => embedExifAt .jpeg file js
      | .jpeg => embedExifAt .jpeg file js
      | .webp => embedExifAt .webp file js
      | .other => (some .unsupported, file)

/-- Model of `validate_metadata_size` (metadata.py lines 191-205). -/
def validate_metadata_size (metadata : JsonObj) : Bool :=
  match metadata with
  | .nil => true
  | .cons _ _ _ => utf8Len (dumpVal (.obj metadata)) ≤ 60000

/-! ## Character list aggregation (metadata.py lines 208-228) -/

/-- First-match lookup in a JSON object, the model of `dict.get` (keys of a
Python dict are unique, so first match is the match). -/
def jlookup : JsonObj → List Char → Option Json
  | .nil, _ => none
  | .cons k v tl, key => if k = key then some v else jlookup tl key

/-- The `character` tag of one metadata object, defaulting to `""`.
A non-string truthy value would raise `AttributeError` in the source; the
model covers the string-or-absent shapes the pipeline itself writes. -/
def charTag (m : JsonObj) : List Char :=
  match jlookup m "character".data with
  | some (.str s) => s
  | _ => []

/-- Python `str.strip()` whitespace test (ASCII whitespace). -/
def pyIsSpace (c : Char) : Bool :=
  c = ' ' || c = '\t' || c = '\n' || c = '\r' || c.toNat = 11 || c.toNat = 12

/-- Python `str.strip()`. -/
def pyStrip (s : List Char) : List Char :=
  ((s.dropWhile pyIsSpace).reverse.dropWhile pyIsSpace).reverse

/-- The `replace('_', ' ')` step. -/
def underscoreToSpace (c : Char) : Char := if c = '_' then ' ' else c

/-- The accumulation loop of `create_character_list`: clean each truthy
`character` tag and append it unless already seen (case-sensitive). -/
def characterAux : List (List Char × JsonObj) → List (List Char) → List (List Char)
  | [], acc => acc
  | (_, m) :: rest, acc =>
    let ct := charTag m
    if ct.isEmpty then characterAux rest acc
    else
      let cleaned := pyStrip (ct.map underscoreToSpace)
      if !cleaned.isEmpty && cleaned ∉ acc then characterAux rest (acc ++ [cleaned])
      else characterAux rest acc

/-- Python `", ".join`. -/
def joinCommaSpace : List (List Char) → List Char
  | [] => []
  | [s] => s
  | s :: s' :: tl => s ++ ',' :: ' ' :: joinCommaSpace (s' :: tl)

/-- Model of `create_character_list`: the input mirrors the
`pack_metadata` dict (filename keys in insertion order). -/
def create_character_list (pack_metadata : List (List Char × JsonObj)) : List Char :=
  joinCommaSpace (characterAux pack_metadata [])

/-! ## Watermark placement (src/core/watermark.py lines 86-113) -/

/-- Model of `_calculate_position`: the nine-anchor lookup with the
`top_right` default, on Python integers (`//` floors, hence `Int.fdiv`). -/
def _calculate_position (base_width base_height wm_width wm_height : Int)
    (position : List Char) (margin_x margin_y : Int) : Int × Int :=
  if position = "top_left".data then (margin_x, margin_y)
  else if position = "top_center".data then (Int.fdiv (base_width - wm_width) 2, margin_y)
  else if position = "top_right".data then (base_width - wm_width - margin_x, margin_y)
  else if position = "center_left".data then (margin_x, Int.fdiv (base_height - wm_height) 2)
  else if position = "center".data then
    (Int.fdiv (base_width - wm_width) 2, Int.fdiv (base_height - wm_height) 2)
  else if position = "center_right".data then
    (base_width - wm_width - margin_x, Int.fdiv (base_height - wm_height) 2)
  else if position = "bottom_left".data then (margin_x, base_height - wm_height - margin_y)
  else if position = "bottom_center".data then
    (Int.fdiv (base_width - wm_width) 2, base_height - wm_height - margin_y)
  else if position = "bottom_right".data then
    (base_width - wm_width - margin_x, base_height - wm_height - margin_y)
  else (base_width - wm_width - margin_x, margin_y)

/-- The nine anchor names of the `positions` dictionary. -/
def anchorNames : List (List Char) :=
  ["top_left".data, "top_center".data, "top_right".data, "center_left".data,
   "center".data, "center_right".data, "bottom_left".data, "bottom_center".data,
   "bottom_right".data]

/-! ## Pack discovery (src/core/processor.py lines 312-339) -/

/-- Immediate contents of the root directory handed to `_discover_packs`:
names of the plain files and of the immediate subdirectories. -/
structure RootDir where
  files : List (List Char)
  subdirs : List (List Char)
deriving DecidableEq

/-- Whether `Path.glob` with one of the four image patterns matches a file
name: the suffix matches and the name is not hidden (glob's `*` does not
match a leading dot). -/
def hasImageExt (name : List Char) : Bool :=
  name.headD ' ' ≠ '.' &&
    (".png".data.isSuffixOf name || ".jpg".data.isSuffixOf name ||
     ".jpeg".data.isSuffixOf name || ".webp".data.isSuffixOf name)

/-- The glob pattern list `image_extensions` of `_discover_packs`. -/
def image_extensions : List (List Char) :=
  ["*.png".data, "*.jpg".data, "*.jpeg".data, "*.webp".data]

/-- Model of `any(input_dir.glob(ext) for ext in image_extensions)`: each
element of the outer generator expression is itself a generator object, and
a generator object is always truthy in Python regardless of whether it would
yield anything, so the `any` is true exactly when `image_extensions` is
non-empty — the directory contents are never consulted. -/
def has_images (_r : RootDir) : Bool := !image_extensions.isEmpty

/-- The `startswith` exclusion tuple of `_discover_packs`. -/
def excludedSub (name : List Char) : Bool :=
  [".".data, "original_images".data, "free_post".data, "preview_Images".data,
   "pixiv_safe".data].any (fun p => p.isPrefixOf name)

/-- A discovered pack: the root itself, or one of its subdirectories. -/
inductive PackRef where
  | root
  | sub (name : List Char)
deriving DecidableEq

/-- Model of `_discover_packs`. -/
def _discover_packs (r : RootDir) : List PackRef :=
  if has_images r then [.root]
  else
    let subfolders := r.subdirs.filter (fun n => !excludedSub n)
    if !subfolders.isEmpty then subfolders.map .sub else []

/-- The discovery rule as the spec states it (used to exhibit the divergence
of `_discover_packs` from its documented behaviour): a root with a directly
contained recognized image is the sole pack; otherwise the non-excluded
immediate subdirectories are the packs. -/
def discoverPacksSpec (r : RootDir) : List PackRef :=
  if r.files.any hasImageExt then [.root]
  else (r.subdirs.filter (fun n => !excludedSub n)).map .sub

/-! ## External transform adapter (src/core/auto_mosaic.py)

The adapter is modelled as a state machine.  The environment fixes the
outcome of everything outside the program: `attemptOk k` is whether the
k-th external-service invocation (subprocess run, counted globally)
succeeds — exit code 0, no timeout, and the output file present are
collapsed into one flag, since all three failure modes behave identically
(one ERROR log, `False`); `copyOk` is whether the `shutil.copy2` fallback
succeeds; `embedOk` whether `embed` into the produced output succeeds.
The mutable state records the invocation counter, the levels of the log
lines emitted, the (clamped) progress values reported, and the output
files written to `pixiv_safe/`.  Status-bar messages carry no decision
content and are not modelled. -/

/-- Log levels of `core.utils.LogLevel`. -/
inductive LogLevel where
  | info
  | success
  | warn
  | error
  | fatal
deriving DecidableEq

/-- An output file written by the adapter: produced by the external
transform, or a verbatim copy of the original; the flag records whether
metadata was (successfully) re-embedded into it. -/
inductive OutputKind where
  | transformed (embedded : Bool)
  | copied (embedded : Bool)
deriving DecidableEq

/-- Environment of the adapter (see the section comment). -/
structure MosaicEnv where
  setupValid : Bool
  attemptOk : Nat → Bool
  copyOk : Bool
  embedOk : Bool

/-- Mutable state threaded through the adapter. -/
structure MState where
  calls : Nat
  logs : List LogLevel
  progressEvents : List Nat
  outputs : List (List Char × OutputKind)

/-- Append one log line. -/
def logAdd (st : MState) (l : LogLevel) : MState :=
  { st with logs := st.logs ++ [l] }

/-- Record one output file. -/
def recordOutput (st : MState) (name : List Char) (k : OutputKind) : MState :=
  { st with outputs := st.outputs ++ [(name, k)] }

/-- Python truthiness of a metadata dict (`None`/`{}` are falsy; the
`metadata=image_metadata if image_metadata else None` call sites make the
two indistinguishable, so `.nil` models both). -/
def mdTruthy : JsonObj → Bool
  | .nil => false
  | .cons _ _ _ => true

/-- Model of `AutoMosaicProcessor.process_image` (auto_mosaic.py lines
66-132), the single-attempt transform: missing input is an ERROR and
failure; otherwise one external invocation is consumed; on success the
metadata (when supplied) is re-embedded — an embed failure only WARNs —
and the output is recorded; on any attempt failure one ERROR is logged. -/
def process_image (e : MosaicEnv) (inputExists : Bool) (name : List Char)
    (preserve : Bool) (md : JsonObj) (st : MState) : Bool × MState :=
  if !inputExists then (false, logAdd st .error)
  else
    let st1 := logAdd st .info
    let k := st1.calls
    let st2 := { st1 with calls := k + 1 }
    if e.attemptOk k then
      let st3 :=
        if preserve && mdTruthy md then
          if e.embedOk then logAdd st2 .info else logAdd st2 .warn
        else st2
      let st4 := recordOutput st3 name (.transformed (preserve && mdTruthy md && e.embedOk))
      (true, logAdd st4 .info)
    else (false, logAdd st2 .error)

/-- Model of the fallback tail of `process_image_with_retry` (lines
172-196): WARN that all attempts failed, copy the original verbatim,
re-embed metadata (WARN on embed failure), SUCCESS log, overall `True`;
only a failing copy yields ERROR and `False`. -/
def fallbackCopy (e : MosaicEnv) (name : List Char) (preserve : Bool)
    (md : JsonObj) (st : MState) : Bool × MState :=
  let st1 := logAdd st .warn
  if e.copyOk then
    let st2 := recordOutput st1 name (.copied (preserve && mdTruthy md && e.embedOk))
    let st3 :=
      if preserve && mdTruthy md then
        if e.embedOk then logAdd st2 .info else logAdd st2 .warn
      else st2
    (true, logAdd st3 .success)
  else (false, logAdd st1 .error)

/-- The retry loop of `process_image_with_retry` (lines 157-170):
`attempt` is how many attempts have already failed, the second argument how
many attempts remain.  A retry (attempt > 0) first WARNs `Tentativa i/n`;
every failed attempt WARNs `Falha na tentativa`; a success after a retry
adds a SUCCESS line; exhausting the attempts falls back to the copy. -/
def tryAttempts (e : MosaicEnv) (name : List Char) (preserve : Bool) (md : JsonObj) :
    Nat → Nat → MState → Bool × MState
  | _, 0, st => fallbackCopy e name preserve md st
  | attempt, r + 1, st =>
    let st1 := if attempt > 0 then logAdd st .warn else st
    let res := process_image e true name preserve md st1
    if res.1 then
      (true, if attempt > 0 then logAdd res.2 .success else res.2)
    else
      tryAttempts e name preserve md (attempt + 1) r (logAdd res.2 .warn)

/-- Model of `AutoMosaicProcessor.process_image_with_retry` (lines 134-196);
`max_retries` defaults to 2 at the call sites. -/
def process_image_with_retry (e : MosaicEnv) (inputExists : Bool) (name : List Char)
    (preserve : Bool) (md : JsonObj) (max_retries : Nat) (st : MState) : Bool × MState :=
  if !inputExists then (false, logAdd st .error)
  else tryAttempts e name preserve md 0 max_retries st

/-- The EXIF payload prepared by `_process_single_image` (lines 370-378):
non-empty only when the metadata dict is truthy, fits the size ceiling and
`piexif.dump` succeeds (`dumpOk`); otherwise the empty `b''` is passed,
modelled as `none`. -/
def exifBytesFor (md : JsonObj) (dumpOk : Bool) : Option (List Char) :=
  match md with
  | .nil => none
  | .cons _ _ _ =>
    if validate_metadata_size md && dumpOk then some (dumpVal (.obj md)) else none

/-- Container format an image is saved in. -/
inductive SavedFormat where
  | jpegQ (quality : Nat)
  | webpQ (quality : Nat)
  | png
deriving DecidableEq

/-- One staged copy for the ZIP archive: output extension, save format, and
the EXIF payload passed to `save` (`none` = no metadata embedded). -/
structure ZipCopy where
  ext : List Char
  fmt : SavedFormat
  exifEmbedded : Option (List Char)
deriving DecidableEq

/-- Model of step 2 of `_process_single_image` (lines 384-396): a
`.jpg`/`.jpeg` source is saved as JPEG quality 95 with the EXIF payload, a
`.webp` source as WEBP quality 95 with the EXIF payload, every other
source as PNG — re-opened from the original and saved with neither an
`exif` nor a `pnginfo` argument, hence with no metadata embedded. -/
def zipStagedCopy (suffix : Suffix) (exifBytes : Option (List Char)) : ZipCopy :=
  if suffix = .jpg || suffix = .jpeg then
    { ext := ".jpeg".data, fmt := .jpegQ 95, exifEmbedded := exifBytes }
  else if suffix = .webp then
    { ext := ".webp".data, fmt := .webpQ 95, exifEmbedded := exifBytes }
  else
    { ext := ".png".data, fmt := .png, exifEmbedded := none }

/-! ## Proof apparatus -/

/-- One step of the decimal accumulator (the body of `parseDigitsAux`). -/
def digitFold (a : Nat) (c : Char) : Nat := 10 * a + (c.toNat - 48)

/-- Whether the first character of a list is a decimal digit. -/
def headIsDigit : List Char → Bool
  | [] => false
  | c :: _ => c.isDigit

mutual

/-- Parser-fuel measure of a JSON value. -/
def sizeV : Json → Nat
  | .null => 1
  | .bool _ => 1
  | .num _ => 1
  | .str _ => 1
  | .arr xs => sizeL xs + 1
  | .obj kvs => sizeO kvs + 1
termination_by structural v => v

/-- Parser-fuel measure of an array-element list. -/
def sizeL : JsonList → Nat
  | .nil => 0
  | .cons v tl => max (sizeV v) (sizeL tl) + 1
termination_by structural xs => xs

/-- Parser-fuel measure of an object-entry list. -/
def sizeO : JsonObj → Nat
  | .nil => 0
  | .cons _ v tl => max (sizeV v) (sizeO tl) + 1
termination_by structural kvs => kvs

end

/-- Number of WARN-level log lines. -/
def warnCount (logs : List LogLevel) : Nat := logs.count .warn

/-- A plain readable PNG file with no embedded metadata (witness input). -/
def sampleFile : ImageFile :=
  { format := .png, comment := [], piexifDesc := [], getexifDesc := [],
    legacyDesc := [], payload := 7, readable := true }

/-- A readable PNG whose Comment chunk holds the JSON document `1`
(witness input). -/
def numFile : ImageFile :=
  { format := .png, comment := ['1'], piexifDesc := [], getexifDesc := [],
    legacyDesc := [], payload := 3, readable := true }

/-- A readable PNG carrying both a comment and a piexif-visible
ImageDescription (witness input). -/
def descFile : ImageFile :=
  { format := .png, comment := ['1'], piexifDesc := ['2'], getexifDesc := [],
    legacyDesc := [], payload := 5, readable := true }

/-- A readable PNG whose Comment chunk holds text that is not JSON
(witness input). -/
def badJsonFile : ImageFile :=
  { format := .png, comment := ['x'], piexifDesc := [], getexifDesc := [],
    legacyDesc := [], payload := 4, readable := true }

/-- An adapter environment whose external service fails every invocation
but whose fallback copy and embed succeed (witness input). -/
def failEnv : MosaicEnv :=
  { setupValid := true, attemptOk := fun _ => false, copyOk := true, embedOk := true }

/-- Like `failEnv` but the fallback copy itself fails (witness input). -/
def failEnvNoCopy : MosaicEnv :=
  { setupValid := true, attemptOk := fun _ => false, copyOk := false, embedOk := true }

/-- The empty adapter state (witness input). -/
def st0 : MState := { calls := 0, logs := [], progressEvents := [], outputs := [] }

/-- A one-entry metadata object (witness input). -/
def mdEx : JsonObj := .cons "a".data (.str ['1']) .nil

/-! ## Round-trip of the JSON codec: character and digit lemmas -/

theorem toNat_ofNat_small (n : Nat) (h : n < 55296) : (Char.ofNat n).toNat = n := by
  unfold Char.ofNat Char.ofNatAux
  rw [dif_pos (Or.inl h)]
  rfl

theorem digitChar_isDigit (n : Nat) (h : n < 10) : (digitChar n).isDigit = true := by
  interval_cases n <;> decide

theorem digitChar_toNat (n : Nat) (h : n < 10) : (digitChar n).toNat = 48 + n :=
  toNat_ofNat_small (48 + n) (by omega)

theorem isHex_hexDigit (n : Nat) (h : n < 16) : isHex (hexDigit n) = true := by
  interval_cases n <;> decide

theorem hexVal_hexDigit (n : Nat) (h : n < 16) : hexVal (hexDigit n) = n := by
  interval_cases n <;> decide

theorem natToChars_ne_nil (n : Nat) : natToChars n ≠ [] := by
  unfold natToChars
  split <;> simp

theorem natToChars_digits (n : Nat) : ∀ c ∈ natToChars n, c.isDigit = true := by
  induction n using Nat.strong_induction_on with
  | _ n ih =>
    unfold natToChars
    split
    · next h =>
      intro c hc
      rw [List.mem_singleton] at hc
      subst hc
      exact digitChar_isDigit n h
    · next h =>
      intro c hc
      rw [List.mem_append, List.mem_singleton] at hc
      rcases hc with hc | hc
      · exact ih (n / 10) (Nat.div_lt_self (by omega) (by omega)) c hc
      · subst hc
        exact digitChar_isDigit _ (Nat.mod_lt _ (by omega))

theorem natToChars_head (n : Nat) :
    ∃ c cs, natToChars n = c :: cs ∧ c.isDigit = true := by
  obtain ⟨c, cs, h⟩ := List.exists_cons_of_ne_nil (natToChars_ne_nil n)
  exact ⟨c, cs, h, natToChars_digits n c (h ▸ List.mem_cons_self c cs)⟩

theorem natToChars_foldl (n : Nat) :
    ∀ acc, (natToChars n).foldl digitFold acc =
      acc * 10 ^ (natToChars n).length + n := by
  induction n using Nat.strong_induction_on with
  | _ n ih =>
    intro acc
    rw [natToChars]
    split
    · next h =>
      simp only [List.foldl_cons, List.foldl_nil, List.length_singleton, pow_one, digitFold]
      rw [digitChar_toNat n h]
      omega
    · next h =>
      rw [List.foldl_append, ih (n / 10) (Nat.div_lt_self (by omega) (by omega)) acc]
      simp only [List.foldl_cons, List.foldl_nil, List.length_append,
        List.length_singleton, digitFold]
      rw [digitChar_toNat (n % 10) (Nat.mod_lt _ (by omega))]
      have hp : (10 : Nat) ^ ((natToChars (n / 10)).length + 1) =
          10 ^ (natToChars (n / 10)).length * 10 := pow_succ 10 _
      have hdm : 10 * (n / 10) + n % 10 = n := Nat.div_add_mod n 10
      set M := acc * 10 ^ (natToChars (n / 10)).length with hM
      rw [hp, ← Nat.mul_assoc, ← hM]
      omega

theorem parseDigitsAux_spec :
    ∀ (ds rest : List Char) (acc : Nat), (∀ c ∈ ds, c.isDigit = true) →
      headIsDigit rest = false →
      parseDigitsAux acc (ds ++ rest) = (ds.foldl digitFold acc, rest) := by
  intro ds
  induction ds with
  | nil =>
    intro rest acc _ hrest
    cases rest with
    | nil => simp [parseDigitsAux]
    | cons c cs =>
      simp only [headIsDigit] at hrest
      simp [parseDigitsAux, hrest]
  | cons d ds ih =>
    intro rest acc hds hrest
    have hd : d.isDigit = true := hds d (List.mem_cons_self _ _)
    simp only [List.cons_append, parseDigitsAux, hd, if_pos, List.foldl_cons]
    exact ih rest _ (fun c hc => hds c (List.mem_cons_of_mem _ hc)) hrest

theorem natFrom_natToChars (n : Nat) (rest : List Char) (hrest : headIsDigit rest = false) :
    parseDigitsAux 0 (natToChars n ++ rest) = (n, rest) := by
  rw [parseDigitsAux_spec (natToChars n) rest 0 (natToChars_digits n) hrest,
    natToChars_foldl n 0]
  simp

theorem parseNumber_neg_cons (c : Char) (cs : List Char) (h : c.isDigit = true) :
    parseNumber ('-' :: c :: cs) =
      some (.num (-((parseDigitsAux 0 (c :: cs)).1 : Int)), (parseDigitsAux 0 (c :: cs)).2) := by
  simp [parseNumber, h]

theorem parseNumber_digit_cons (c : Char) (cs : List Char) (h : c.isDigit = true) :
    parseNumber (c :: cs) =
      some (.num ((parseDigitsAux 0 (c :: cs)).1 : Int), (parseDigitsAux 0 (c :: cs)).2) := by
  have hne : c ≠ '-' := by
    intro hh
    subst hh
    simp at h
  simp [parseNumber, hne, h]

theorem parseNumber_intToChars (n : Int) (rest : List Char)
    (hrest : headIsDigit rest = false) :
    parseNumber (intToChars n ++ rest) = some (.num n, rest) := by
  unfold intToChars
  split
  · next hneg =>
    obtain ⟨c, cs, hc, hcd⟩ := natToChars_head n.natAbs
    rw [List.cons_append, hc, List.cons_append, parseNumber_neg_cons c (cs ++ rest) hcd,
      ← List.cons_append, ← hc, natFrom_natToChars n.natAbs rest hrest]
    simp only [Option.some.injEq, Prod.mk.injEq, Json.num.injEq]
    exact ⟨by omega, trivial⟩
  · next hpos =>
    obtain ⟨c, cs, hc, hcd⟩ := natToChars_head n.natAbs
    rw [hc, List.cons_append, parseNumber_digit_cons c (cs ++ rest) hcd,
      ← List.cons_append, ← hc, natFrom_natToChars n.natAbs rest hrest]
    simp only [Option.some.injEq, Prod.mk.injEq, Json.num.injEq]
    exact ⟨by omega, trivial⟩

theorem parseStrAux_esc (s rest : List Char) :
    parseStrAux (escStr s ++ '"' :: rest) = some (s, rest) := by
  induction s with
  | nil =>
    rw [show escStr [] = [] from rfl, List.nil_append, parseStrAux.eq_def]
    simp
  | cons c s ih =>
    have hesc : escStr (c :: s) = escChar c ++ escStr s := by simp [escStr]
    rw [hesc, List.append_assoc]
    unfold escChar
    by_cases h1 : c = '"'
    · subst h1
      rw [if_pos rfl, parseStrAux.eq_def]
      simp [ih]
    · rw [if_neg h1]
      by_cases h2 : c = '\\'
      · subst h2
        rw [if_pos rfl, parseStrAux.eq_def]
        simp [ih]
      · rw [if_neg h2]
        by_cases h3 : c = '\n'
        · subst h3
          rw [if_pos rfl, parseStrAux.eq_def]
          simp [ih]
        · rw [if_neg h3]
          by_cases h4 : c = '\r'
          · subst h4
            rw [if_pos rfl, parseStrAux.eq_def]
            simp [ih]
          · rw [if_neg h4]
            by_cases h5 : c = '\t'
            · subst h5
              rw [if_pos rfl, parseStrAux.eq_def]
              simp [ih]
            · rw [if_neg h5]
              by_cases h6 : c.toNat = 8
              · rw [if_pos h6]
                have hc : Char.ofNat 8 = c := by rw [← h6, Char.ofNat_toNat]
                rw [parseStrAux.eq_def]
                simp [ih, hc]
                exact hc
              · rw [if_neg h6]
                by_cases h7 : c.toNat = 12
                · rw [if_pos h7]
                  have hc : Char.ofNat 12 = c := by rw [← h7, Char.ofNat_toNat]
                  rw [parseStrAux.eq_def]
                  simp [ih, hc]
                  exact hc
                · rw [if_neg h7]
                  by_cases h8 : c.toNat < 32
                  · rw [if_pos h8]
                    have h16a : c.toNat / 16 < 16 := by omega
                    have h16b : c.toNat % 16 < 16 := by omega
                    have hv0 : hexVal '0' = 0 := by decide
                    have harith : hexVal '0' * 4096 + hexVal '0' * 256 +
                        hexVal (hexDigit (c.toNat / 16)) * 16 +
                        hexVal (hexDigit (c.toNat % 16)) = c.toNat := by
                      rw [hexVal_hexDigit _ h16a, hexVal_hexDigit _ h16b, hv0]
                      omega
                    have hx0 : isHex '0' = true := by decide
                    rw [parseStrAux.eq_def]
                    simp [hx0, isHex_hexDigit _ h16a, isHex_hexDigit _ h16b, harith,
                      Char.ofNat_toNat, ih]
                  · rw [if_neg h8, List.singleton_append, parseStrAux.eq_def]
                    simp [h1, h2, h8, ih]

theorem sizeV_pos (v : Json) : 1 ≤ sizeV v := by
  cases v <;> simp [sizeV]

theorem intToChars_head (n : Int) :
    ∃ c cs, intToChars n = c :: cs ∧ (c = '-' ∨ c.isDigit = true) := by
  unfold intToChars
  split
  · exact ⟨'-', _, rfl, Or.inl rfl⟩
  · obtain ⟨c, cs, hc, hcd⟩ := natToChars_head n.natAbs
    exact ⟨c, cs, hc, Or.inr hcd⟩

theorem num_head_ne (c : Char) (h : c = '-' ∨ c.isDigit = true) :
    ¬c = 'n' ∧ ¬c = 't' ∧ ¬c = 'f' ∧ ¬c = '"' ∧ ¬c = '[' ∧ ¬c = lbrace := by
  rcases h with h | h
  · subst h
    refine ⟨by decide, by decide, by decide, by decide, by decide, by decide⟩
  · refine ⟨?_, ?_, ?_, ?_, ?_, ?_⟩ <;>
      (intro hh; subst hh; exact absurd h (by decide))

theorem dumpVal_head (v : Json) :
    ∃ c cs, dumpVal v = c :: cs ∧
      (c = 'n' ∨ c = 't' ∨ c = 'f' ∨ c = '"' ∨ c = '[' ∨ c = lbrace ∨
        c = '-' ∨ c.isDigit = true) := by
  cases v with
  | null => exact ⟨'n', ['u', 'l', 'l'], by simp [dumpVal, nullChars], by simp⟩
  | bool b =>
    cases b
    · exact ⟨'f', ['a', 'l', 's', 'e'], by simp [dumpVal, falseChars], by simp⟩
    · exact ⟨'t', ['r', 'u', 'e'], by simp [dumpVal, trueChars], by simp⟩
  | num n =>
    obtain ⟨c, cs, hc, hshape⟩ := intToChars_head n
    refine ⟨c, cs, ?_, by tauto⟩
    rw [show dumpVal (.num n) = intToChars n by simp [dumpVal]]
    exact hc
  | str s => exact ⟨'"', escStr s ++ ['"'], by simp [dumpVal], by simp⟩
  | arr xs => exact ⟨'[', dumpList xs ++ [']'], by simp [dumpVal], by simp⟩
  | obj kvs => exact ⟨lbrace, dumpObj kvs ++ [rbrace], by simp [dumpVal], by simp⟩

theorem head_ne_closers (c : Char)
    (h : c = 'n' ∨ c = 't' ∨ c = 'f' ∨ c = '"' ∨ c = '[' ∨ c = lbrace ∨
      c = '-' ∨ c.isDigit = true) :
    ¬c = ']' ∧ ¬c = rbrace := by
  rcases h with h | h | h | h | h | h | h | h
  all_goals first
    | (subst h; exact ⟨by decide, by decide⟩)
    | (refine ⟨?_, ?_⟩ <;> (intro hh; subst hh; exact absurd h (by decide)))

theorem dumpList_cons_head (v : Json) (tl : JsonList) :
    ∃ c cs, dumpList (.cons v tl) = c :: cs ∧
      (c = 'n' ∨ c = 't' ∨ c = 'f' ∨ c = '"' ∨ c = '[' ∨ c = lbrace ∨
        c = '-' ∨ c.isDigit = true) := by
  obtain ⟨c, cs, hc, hshape⟩ := dumpVal_head v
  cases tl with
  | nil =>
    refine ⟨c, cs, ?_, hshape⟩
    rw [show dumpList (.cons v .nil) = dumpVal v by simp [dumpList]]
    exact hc
  | cons v' tl' =>
    refine ⟨c, cs ++ ',' :: dumpList (.cons v' tl'), ?_, hshape⟩
    rw [show dumpList (.cons v (.cons v' tl')) = dumpVal v ++ ',' :: dumpList (.cons v' tl')
      by simp [dumpList]]
    rw [hc, List.cons_append]

theorem headIsDigit_cons (c : Char) (l : List Char) :
    headIsDigit (c :: l) = c.isDigit := rfl

theorem parse_dump_all : ∀ f : Nat,
    (∀ v rest, sizeV v ≤ f → headIsDigit rest = false →
      parseVal f (dumpVal v ++ rest) = some (v, rest)) ∧
    (∀ v tl rest, sizeL (.cons v tl) ≤ f →
      parseArrItems f (dumpList (.cons v tl) ++ ']' :: rest) = some (.cons v tl, rest)) ∧
    (∀ k v tl rest, sizeO (.cons k v tl) ≤ f →
      parseObjItems f (dumpObj (.cons k v tl) ++ rbrace :: rest) =
        some (.cons k v tl, rest)) := by
  intro f
  induction f with
  | zero =>
    refine ⟨?_, ?_, ?_⟩
    · intro v rest hv _
      have := sizeV_pos v
      omega
    · intro v tl rest h
      rw [show sizeL (.cons v tl) = max (sizeV v) (sizeL tl) + 1 by simp [sizeL]] at h
      omega
    · intro k v tl rest h
      rw [show sizeO (.cons k v tl) = max (sizeV v) (sizeO tl) + 1 by simp [sizeO]] at h
      omega
  | succ f ih =>
    obtain ⟨ihP, ihQ, ihR⟩ := ih
    refine ⟨?_, ?_, ?_⟩
    · intro v rest hv hrest
      cases v with
      | null =>
        rw [show dumpVal .null = ['n', 'u', 'l', 'l'] by simp [dumpVal, nullChars]]
        simp [parseVal]
      | bool b =>
        cases b
        · rw [show dumpVal (.bool false) = ['f', 'a', 'l', 's', 'e'] by simp [dumpVal, falseChars]]
          simp [parseVal]
        · rw [show dumpVal (.bool true) = ['t', 'r', 'u', 'e'] by simp [dumpVal, trueChars]]
          simp [parseVal]
      | num n =>
        rw [show dumpVal (.num n) = intToChars n by simp [dumpVal]]
        obtain ⟨c, cs, hc, hshape⟩ := intToChars_head n
        obtain ⟨e1, e2, e3, e4, e5, e6⟩ := num_head_ne c hshape
        rw [hc, List.cons_append]
        simp only [parseVal]
        rw [if_neg e1, if_neg e2, if_neg e3, if_neg e4, if_neg e5, if_neg e6,
          ← List.cons_append, ← hc]
        exact parseNumber_intToChars n rest hrest
      | str s =>
        rw [show dumpVal (.str s) = '"' :: (escStr s ++ ['"']) by simp [dumpVal]]
        rw [List.cons_append, List.append_assoc, List.singleton_append]
        simp [parseVal, parseStrAux_esc s rest]
      | arr xs =>
        cases xs with
        | nil =>
          rw [show dumpVal (.arr .nil) = ['[', ']'] by simp [dumpVal, dumpList]]
          simp [parseVal]
        | cons v' tl =>
          rw [show dumpVal (.arr (.cons v' tl)) = '[' :: (dumpList (.cons v' tl) ++ [']'])
            by simp [dumpVal]]
          rw [List.cons_append, List.append_assoc, List.singleton_append]
          obtain ⟨c, cs, hc, hshape⟩ := dumpList_cons_head v' tl
          have hne := (head_ne_closers c hshape).1
          have hsz : sizeL (.cons v' tl) ≤ f := by
            rw [show sizeV (.arr (.cons v' tl)) = sizeL (.cons v' tl) + 1
              by simp [sizeV]] at hv
            omega
          rw [hc, List.cons_append]
          simp only [parseVal]
          simp only [reduceIte, if_neg hne]
          rw [← List.cons_append, ← hc, ihQ v' tl rest hsz]
          simp
      | obj kvs =>
        cases kvs with
        | nil =>
          rw [show dumpVal (.obj .nil) = [lbrace, rbrace] by simp [dumpVal, dumpObj]]
          simp [parseVal, lbrace, rbrace]
        | cons k v' tl =>
          rw [show dumpVal (.obj (.cons k v' tl)) =
              lbrace :: (dumpObj (.cons k v' tl) ++ [rbrace]) by simp [dumpVal]]
          rw [List.cons_append, List.append_assoc, List.singleton_append]
          have hobj : ∃ cs, dumpObj (.cons k v' tl) = '"' :: cs := by
            cases tl with
            | nil =>
              exact ⟨escStr k ++ '"' :: ':' :: dumpVal v', by simp [dumpObj]⟩
            | cons k' v'' tl' =>
              exact ⟨(escStr k ++ '"' :: ':' :: dumpVal v') ++
                ',' :: dumpObj (.cons k' v'' tl'), by simp [dumpObj]⟩
          obtain ⟨cs, hc⟩ := hobj
          have hsz : sizeO (.cons k v' tl) ≤ f := by
            rw [show sizeV (.obj (.cons k v' tl)) = sizeO (.cons k v' tl) + 1
              by simp [sizeV]] at hv
            omega
          rw [hc, List.cons_append]
          simp only [parseVal]
          simp only [if_neg (show ¬lbrace = 'n' by decide),
            if_neg (show ¬lbrace = 't' by decide), if_neg (show ¬lbrace = 'f' by decide),
            if_neg (show ¬lbrace = '"' by decide), if_neg (show ¬lbrace = '[' by decide),
            if_pos (show lbrace = lbrace from rfl),
            if_neg (show ¬('"' : Char) = rbrace by decide)]
          rw [← List.cons_append, ← hc, ihR k v' tl rest hsz]
          simp
    · intro v tl rest h
      have hmax1 := le_max_left (sizeV v) (sizeL tl)
      have hmax2 := le_max_right (sizeV v) (sizeL tl)
      rw [show sizeL (.cons v tl) = max (sizeV v) (sizeL tl) + 1 by simp [sizeL]] at h
      cases tl with
      | nil =>
        rw [show dumpList (.cons v .nil) = dumpVal v by simp [dumpList]]
        simp only [parseArrItems]
        rw [ihP v (']' :: rest) (by omega) (by rw [headIsDigit_cons]; decide)]
        simp
      | cons v' tl' =>
        rw [show dumpList (.cons v (.cons v' tl')) = dumpVal v ++ ',' :: dumpList (.cons v' tl')
          by simp [dumpList]]
        rw [List.append_assoc, List.cons_append]
        simp only [parseArrItems]
        rw [ihP v (',' :: (dumpList (.cons v' tl') ++ ']' :: rest)) (by omega)
          (by rw [headIsDigit_cons]; decide)]
        simp only [if_pos rfl]
        rw [ihQ v' tl' rest (by omega)]
        simp
    · intro k v tl rest h
      have hmax1 := le_max_left (sizeV v) (sizeO tl)
      have hmax2 := le_max_right (sizeV v) (sizeO tl)
      rw [show sizeO (.cons k v tl) = max (sizeV v) (sizeO tl) + 1 by simp [sizeO]] at h
      cases tl with
      | nil =>
        rw [show dumpObj (.cons k v .nil) = '"' :: (escStr k ++ '"' :: ':' :: dumpVal v)
          by simp [dumpObj]]
        simp only [List.cons_append, List.append_assoc]
        simp only [parseObjItems, if_true]
        rw [parseStrAux_esc k (':' :: (dumpVal v ++ rbrace :: rest))]
        simp only [ihP v (rbrace :: rest) (by omega) (by rw [headIsDigit_cons]; decide)]
        simp [show ¬rbrace = ',' by decide]
      | cons k' v' tl' =>
        rw [show dumpObj (.cons k v (.cons k' v' tl')) =
            ('"' :: (escStr k ++ '"' :: ':' :: dumpVal v)) ++ ',' :: dumpObj (.cons k' v' tl')
          by simp [dumpObj]]
        simp only [List.cons_append, List.append_assoc]
        simp only [parseObjItems, if_true]
        rw [parseStrAux_esc k
          (':' :: (dumpVal v ++ ',' :: (dumpObj (.cons k' v' tl') ++ rbrace :: rest)))]
        simp only [ihP v (',' :: (dumpObj (.cons k' v' tl') ++ rbrace :: rest)) (by omega)
          (by rw [headIsDigit_cons]; decide)]
        simp [ihR k' v' tl' rest (by omega)]

theorem dump_length_bound : ∀ n : Nat,
    (∀ v, sizeV v ≤ n → sizeV v ≤ (dumpVal v).length) ∧
    (∀ xs, sizeL xs ≤ n → sizeL xs ≤ (dumpList xs).length + 1) ∧
    (∀ kvs, sizeO kvs ≤ n → sizeO kvs ≤ (dumpObj kvs).length + 1) := by
  intro n
  induction n with
  | zero =>
    refine ⟨?_, ?_, ?_⟩
    · intro v hv
      have := sizeV_pos v
      omega
    · intro xs hxs
      cases xs with
      | nil => simp [sizeL]
      | cons v tl =>
        rw [show sizeL (.cons v tl) = max (sizeV v) (sizeL tl) + 1 by simp [sizeL]] at hxs
        omega
    · intro kvs hkvs
      cases kvs with
      | nil => simp [sizeO]
      | cons k v tl =>
        rw [show sizeO (.cons k v tl) = max (sizeV v) (sizeO tl) + 1 by simp [sizeO]] at hkvs
        omega
  | succ n ih =>
    obtain ⟨ihV, ihL, ihO⟩ := ih
    refine ⟨?_, ?_, ?_⟩
    · intro v hv
      cases v with
      | null => simp [sizeV, dumpVal, nullChars]
      | bool b => cases b <;> simp [sizeV, dumpVal, trueChars, falseChars]
      | num m =>
        have hlen : 0 < (intToChars m).length := by
          unfold intToChars
          split
          · simp
          · exact List.length_pos.mpr (natToChars_ne_nil m.natAbs)
        rw [show sizeV (.num m) = 1 by simp [sizeV],
          show dumpVal (.num m) = intToChars m by simp [dumpVal]]
        omega
      | str s => simp [sizeV, dumpVal]
      | arr xs =>
        have hx : sizeL xs ≤ n := by
          rw [show sizeV (.arr xs) = sizeL xs + 1 by simp [sizeV]] at hv
          omega
        have := ihL xs hx
        rw [show sizeV (.arr xs) = sizeL xs + 1 by simp [sizeV],
          show dumpVal (.arr xs) = '[' :: (dumpList xs ++ [']']) by simp [dumpVal]]
        simp only [List.length_cons, List.length_append, List.length_singleton]
        omega
      | obj kvs =>
        have hx : sizeO kvs ≤ n := by
          rw [show sizeV (.obj kvs) = sizeO kvs + 1 by simp [sizeV]] at hv
          omega
        have := ihO kvs hx
        rw [show sizeV (.obj kvs) = sizeO kvs + 1 by simp [sizeV],
          show dumpVal (.obj kvs) = lbrace :: (dumpObj kvs ++ [rbrace]) by simp [dumpVal]]
        simp only [List.length_cons, List.length_append, List.length_singleton]
        omega
    · intro xs hxs
      cases xs with
      | nil => simp [sizeL]
      | cons v tl =>
        rw [show sizeL (.cons v tl) = max (sizeV v) (sizeL tl) + 1 by simp [sizeL]] at hxs ⊢
        have h1 : sizeV v ≤ n := by
          have := le_max_left (sizeV v) (sizeL tl)
          omega
        have h2 : sizeL tl ≤ n := by
          have := le_max_right (sizeV v) (sizeL tl)
          omega
        have hb1 := ihV v h1
        have hb2 := ihL tl h2
        cases tl with
        | nil =>
          rw [show dumpList (.cons v .nil) = dumpVal v by simp [dumpList]]
          rw [show sizeL JsonList.nil = 0 by simp [sizeL]] at hb2 ⊢
          omega
        | cons v' tl' =>
          rw [show dumpList (.cons v (.cons v' tl')) =
              dumpVal v ++ ',' :: dumpList (.cons v' tl') by simp [dumpList]]
          simp only [List.length_append, List.length_cons]
          have := le_max_left (sizeV v) (sizeL (.cons v' tl'))
          have := le_max_right (sizeV v) (sizeL (.cons v' tl'))
          omega
    · intro kvs hkvs
      cases kvs with
      | nil => simp [sizeO]
      | cons k v tl =>
        rw [show sizeO (.cons k v tl) = max (sizeV v) (sizeO tl) + 1 by simp [sizeO]] at hkvs ⊢
        have h1 : sizeV v ≤ n := by
          have := le_max_left (sizeV v) (sizeO tl)
          omega
        have h2 : sizeO tl ≤ n := by
          have := le_max_right (sizeV v) (sizeO tl)
          omega
        have hb1 := ihV v h1
        have hb2 := ihO tl h2
        cases tl with
        | nil =>
          rw [show dumpObj (.cons k v .nil) = '"' :: (escStr k ++ '"' :: ':' :: dumpVal v)
            by simp [dumpObj]]
          rw [show sizeO JsonObj.nil = 0 by simp [sizeO]] at hb2 ⊢
          simp only [List.length_cons, List.length_append]
          omega
        | cons k' v' tl' =>
          rw [show dumpObj (.cons k v (.cons k' v' tl')) =
              ('"' :: (escStr k ++ '"' :: ':' :: dumpVal v)) ++
                ',' :: dumpObj (.cons k' v' tl') by simp [dumpObj]]
          simp only [List.length_append, List.length_cons]
          have := le_max_left (sizeV v) (sizeO (.cons k' v' tl'))
          have := le_max_right (sizeV v) (sizeO (.cons k' v' tl'))
          omega

/-- Round trip of the modelled JSON codec: parsing a compact serialization
recovers the value. -/
theorem loads_dumpVal (v : Json) : loads (dumpVal v) = some v := by
  have h1 : sizeV v ≤ (dumpVal v).length + 1 := by
    have := (dump_length_bound (sizeV v)).1 v le_rfl
    omega
  have h2 := (parse_dump_all ((dumpVal v).length + 1)).1 v [] h1 rfl
  rw [List.append_nil] at h2
  unfold loads
  rw [h2]

/-! ## Supporting lemmas for the claim theorems -/

theorem isEmpty_false_of_ne_nil {α : Type} (l : List α) (h : l ≠ []) :
    l.isEmpty = false := by
  cases l with
  | nil => exact absurd rfl h
  | cons a l => rfl

theorem loads_emptyObjSrc : loads emptyObjSrc = some (.obj .nil) := by
  have h := loads_dumpVal (.obj .nil)
  rwa [show dumpVal (.obj .nil) = emptyObjSrc by simp [dumpVal, dumpObj, emptyObjSrc]] at h

theorem characterAux_nodup :
    ∀ (pack : List (List Char × JsonObj)) (acc : List (List Char)),
      acc.Nodup → (characterAux pack acc).Nodup := by
  intro pack
  induction pack with
  | nil =>
    intro acc h
    simpa [characterAux] using h
  | cons p rest ih =>
    intro acc h
    obtain ⟨name, m⟩ := p
    simp only [characterAux]
    split
    · exact ih acc h
    · split
      · next hcl =>
        apply ih
        rw [List.nodup_append]
        have hmem : pyStrip (List.map underscoreToSpace (charTag m)) ∉ acc := by
          simp only [Bool.and_eq_true, decide_eq_true_eq] at hcl
          exact hcl.2
        refine ⟨h, List.nodup_singleton _, ?_⟩
        intro a ha hb
        rw [List.mem_singleton] at hb
        subst hb
        exact hmem ha
      · exact ih acc h

/-! ## Claim theorems -/

/-- C10: `embed(p, {})` returns immediately with no error and leaves the
file state untouched, for every suffix (including unsupported ones) and
every file state (including a missing file): the `if not metadata: return`
guard fires before the size check and before any file access. -/
theorem c10_embed_empty_noop (suffix : Suffix) (file : Option ImageFile) :
    embed suffix file .nil = (none, file) := rfl

/-- C8: `_calculate_position` places a 200x100 watermark on a 1000x800 base
with margins (20, 20) and anchor `bottom_right` at (780, 680); and every
position string that is not one of the nine anchor names yields exactly the
`top_right` formula `(base_width - wm_width - margin_x, margin_y)` without
erroring. -/
theorem c8_calculate_position :
    _calculate_position 1000 800 200 100 "bottom_right".data 20 20 = (780, 680) ∧
    ∀ (pos : List Char) (bw bh ww wh mx my : Int), pos ∉ anchorNames →
      _calculate_position bw bh ww wh pos mx my = (bw - ww - mx, my) := by
  constructor
  · rfl
  · intro pos bw bh ww wh mx my h
    simp only [anchorNames, List.mem_cons, List.mem_singleton, not_or] at h
    obtain ⟨h1, h2, h3, h4, h5, h6, h7, h8, h9⟩ := h
    simp [_calculate_position, h1, h2, h3, h4, h5, h6, h7, h8, h9]

/-- Witness for `c8_calculate_position`: the unrecognized anchor name
`oops` falls back to the `top_right` formula. -/
theorem c8_calculate_position_witness :
    "oops".data ∉ anchorNames ∧
    _calculate_position 1000 800 200 100 "oops".data 20 20 = (780, 20) :=
  ⟨by decide, c8_calculate_position.2 "oops".data 1000 800 200 100 20 20 (by decide)⟩

/-- C4 (divergence of the code from the documented rule): because
`any(input_dir.glob(ext) for ext in image_extensions)` tests the truthiness
of generator objects, which are always truthy, `_discover_packs` returns
`[root]` for every root — in particular for a root with no images and one
eligible subdirectory `packA`, where the documented rule
(`discoverPacksSpec`) returns `[packA]`. -/
theorem c4_discover_packs_bug :
    (∀ r : RootDir, _discover_packs r = [PackRef.root]) ∧
    _discover_packs { files := [], subdirs := ["packA".data] } = [PackRef.root] ∧
    discoverPacksSpec { files := [], subdirs := ["packA".data] } =
      [PackRef.sub "packA".data] := by
  refine ⟨?_, ?_, by decide⟩
  · intro r
    simp [_discover_packs, has_images, image_extensions]
  · simp [_discover_packs, has_images, image_extensions]

/-- C9: `create_character_list` cleans each `character` tag (underscores to
spaces, strip), de-duplicates case-sensitively in first-seen order and joins
with a comma-space: on the documented three-image example it yields
`Foo Bar, foo bar` (both cleaned strings kept, in first-seen order), and in
general the collected list never contains duplicates. -/
theorem c9_create_character_list :
    create_character_list
      [("a.png".data, .cons "character".data (.str "Foo_Bar".data) .nil),
       ("b.png".data, .cons "character".data (.str "foo_bar".data) .nil),
       ("c.png".data, .nil)] = "Foo Bar, foo bar".data ∧
    ∀ pack : List (List Char × JsonObj), (characterAux pack []).Nodup := by
  constructor
  · decide
  · intro pack
    exact characterAux_nodup pack [] List.nodup_nil

/-- C5: on a readable image whose embedded comment/description text is not
valid JSON, `extract_png` does not raise: it returns the raw-fallback
object carrying the raw comment (when present), the raw image-description
value (when present) and the original metadata source string (the
`_parse_error` entry holding the decoder message is part of the fallback
constructor by construction). -/
theorem c5_extract_raw_fallback (img : ImageFile) (hr : img.readable = true)
    (hbad : loads (metadataSource img) = none) :
    extract_png img =
      .fallback (noneIfEmpty (pngCommentOf img)) (noneIfEmpty (exifDescriptionOf img))
        (some (metadataSource img)) := by
  have hne : ¬metadataSource img = emptyObjSrc := by
    intro h
    rw [h, loads_emptyObjSrc] at hbad
    exact Option.noConfusion hbad
  simp [extract_png, hr, hbad, hne]

/-- Witness for `c5_extract_raw_fallback`: a PNG whose comment is the
non-JSON text `x` extracts to the raw fallback carrying that text. -/
theorem c5_extract_raw_fallback_witness :
    extract_png badJsonFile = .fallback (some ['x']) none (some ['x']) := by
  have h := c5_extract_raw_fallback badJsonFile rfl rfl
  rw [h]
  rfl

/-- C6: when an image carries both a plain PNG comment and an embedded EXIF
ImageDescription, `extract_png` uses the description as the metadata source
in preference to the comment, no matter which of the lookup strategies
produced it: the structured piexif method (any format), the simplified
`getexif` accessor (consulted for JPEG), or the legacy `_getexif` accessor
(the simplified lookup that applies to the remaining formats, tried when
the structured method yields nothing). -/
theorem c6_description_over_comment (img : ImageFile) (d : List Char)
    (hd : d ≠ []) (hc : pngCommentOf img ≠ [])
    (hfound : img.piexifDesc = d ∨
      (img.piexifDesc = [] ∧ img.format = .jpeg ∧ img.getexifDesc = d) ∨
      (img.piexifDesc = [] ∧ (¬img.format = .jpeg ∨ img.getexifDesc = []) ∧
        img.legacyDesc = d)) :
    exifDescriptionOf img = d ∧ metadataSource img = d := by
  have hde : d.isEmpty = false := isEmpty_false_of_ne_nil d hd
  have he : exifDescriptionOf img = d := by
    rcases hfound with h | ⟨h1, h2, h3⟩ | ⟨h1, h2, h3⟩
    · simp [exifDescriptionOf, h, hde]
    · simp [exifDescriptionOf, h1, h2, h3, hde]
    · rcases h2 with h2 | h2
      · simp [exifDescriptionOf, h1, h2, h3, hde]
      · by_cases hf : img.format = .jpeg
        · simp [exifDescriptionOf, h1, hf, h2, h3, hde]
        · simp [exifDescriptionOf, h1, hf, h3, hde]
  exact ⟨he, by simp [metadataSource, he, hde]⟩

/-- Witness for `c6_description_over_comment`: a PNG with comment `1` and a
piexif-visible description `2` uses `2` as the metadata source. -/
theorem c6_description_over_comment_witness :
    exifDescriptionOf descFile = ['2'] ∧ metadataSource descFile = ['2'] :=
  c6_description_over_comment descFile ['2'] (by decide) (by decide) (Or.inl rfl)

/-- C7 counterexample: for a PNG source with present, size-valid metadata,
the ZIP-staged copy carries no embedded metadata (the PNG branch re-opens
the original and saves it with neither `exif` nor `pnginfo`), refuting
"metadata embedded ... including the PNG case". -/
theorem c7_counterexample :
    exifBytesFor mdEx true = some (dumpVal (.obj mdEx)) ∧
    (zipStagedCopy .png (exifBytesFor mdEx true)).exifEmbedded = none := by
  constructor
  · decide
  · rfl

/-- C7 (amended): the ZIP-staged copy preserves the container format — a
`.jpg`/`.jpeg` source is saved as JPEG quality 95 and a `.webp` source as
WEBP quality 95, both carrying the prepared EXIF metadata payload; every
other source is saved as PNG, with no metadata embedded. -/
theorem c7_zip_copy_format (suffix : Suffix) (eb : Option (List Char)) :
    ((suffix = .jpg ∨ suffix = .jpeg) →
      zipStagedCopy suffix eb =
        { ext := ".jpeg".data, fmt := .jpegQ 95, exifEmbedded := eb }) ∧
    (suffix = .webp →
      zipStagedCopy suffix eb =
        { ext := ".webp".data, fmt := .webpQ 95, exifEmbedded := eb }) ∧
    (¬suffix = .jpg → ¬suffix = .jpeg → ¬suffix = .webp →
      zipStagedCopy suffix eb =
        { ext := ".png".data, fmt := .png, exifEmbedded := none }) := by
  refine ⟨?_, ?_, ?_⟩
  · rintro (h | h) <;> subst h <;> rfl
  · intro h
    subst h
    rfl
  · intro h1 h2 h3
    cases suffix with
    | png => rfl
    | other => rfl
    | jpg => exact absurd rfl h1
    | jpeg => exact absurd rfl h2
    | webp => exact absurd rfl h3

/-- Witness for `c7_zip_copy_format`: a WEBP source stays WEBP at quality
95 with the EXIF payload attached. -/
theorem c7_zip_copy_format_witness :
    zipStagedCopy .webp (some ['e']) =
      { ext := ".webp".data, fmt := .webpQ 95, exifEmbedded := some ['e'] } :=
  (c7_zip_copy_format .webp (some ['e'])).2.1 rfl

/-- C1 counterexample (empty metadata): `{}` serializes to two bytes, yet
`embed` with an empty mapping is a no-op, so on an image whose comment is
the JSON document `1` the subsequent extraction returns `1`, not `{}` —
the claimed round trip fails for the empty mapping. -/
theorem c1_counterexample :
    utf8Len (dumpVal (.obj .nil)) ≤ 60000 ∧
    embed .png (some numFile) .nil = (none, some numFile) ∧
    extract_png numFile = .parsed (.num 1) ∧
    Json.num 1 ≠ .obj .nil := by
  refine ⟨by decide, rfl, ?_, fun h => Json.noConfusion h⟩
  rfl

/-- C1 (amended): for every non-empty metadata mapping whose compact UTF-8
serialization is at most 60,000 bytes, embedding into a readable PNG and
extracting returns the mapping (round trip through the PNG Comment chunk);
and whenever the serialization exceeds 60,000 bytes, `embed` raises the
size-limit error before any write, leaving the file unchanged — metadata is
never truncated. -/
theorem c1_embed_extract_roundtrip (k : List Char) (v : Json) (tl : JsonObj)
    (f : ImageFile) (hread : f.readable = true) :
    (utf8Len (dumpVal (.obj (.cons k v tl))) ≤ 60000 →
      embed .png (some f) (.cons k v tl) =
        (none, some (pngSaved f (dumpVal (.obj (.cons k v tl))))) ∧
      extract_png (pngSaved f (dumpVal (.obj (.cons k v tl)))) =
        .parsed (.obj (.cons k v tl))) ∧
    (60000 < utf8Len (dumpVal (.obj (.cons k v tl))) →
      embed .png (some f) (.cons k v tl) = (some .sizeLimit, some f)) := by
  constructor
  · intro hsz
    constructor
    · simp [embed, hread, show ¬utf8Len (dumpVal (.obj (.cons k v tl))) > 60000 by omega]
    · obtain ⟨c, cs, hc, _⟩ := dumpVal_head (.obj (.cons k v tl))
      have hne : (dumpVal (.obj (.cons k v tl))).isEmpty = false := by
        rw [hc]
        rfl
      simp [extract_png, pngSaved, metadataSource, exifDescriptionOf, pngCommentOf,
        hne, loads_dumpVal]
  · intro hsz
    simp [embed, hread, show utf8Len (dumpVal (.obj (.cons k v tl))) > 60000 from hsz]

/-- Witness for `c1_embed_extract_roundtrip`: the one-entry mapping with
key `k` and value `"v"` survives the embed/extract round trip. -/
theorem c1_embed_extract_roundtrip_witness :
    embed .png (some sampleFile) (.cons ['k'] (.str ['v']) .nil) =
      (none, some (pngSaved sampleFile (dumpVal (.obj (.cons ['k'] (.str ['v']) .nil))))) ∧
    extract_png (pngSaved sampleFile (dumpVal (.obj (.cons ['k'] (.str ['v']) .nil)))) =
      .parsed (.obj (.cons ['k'] (.str ['v']) .nil)) :=
  (c1_embed_extract_roundtrip ['k'] (.str ['v']) .nil sampleFile rfl).1 (by decide)

theorem warnCount_append (l l' : List LogLevel) :
    warnCount (l ++ l') = warnCount l + warnCount l' := by
  simp [warnCount, List.count_append]

theorem process_image_fail (e : MosaicEnv) (name : List Char) (pm : Bool) (md : JsonObj)
    (st : MState) (h : e.attemptOk st.calls = false) :
    process_image e true name pm md st =
      (false, ⟨st.calls + 1, st.logs ++ [.info, .error], st.progressEvents, st.outputs⟩) := by
  simp [process_image, logAdd, h]

theorem fallbackCopy_spec (e : MosaicEnv) (name : List Char) (pm : Bool) (md : JsonObj)
    (st : MState) :
    (e.copyOk = true →
      (fallbackCopy e name pm md st).1 = true ∧
      (name, OutputKind.copied (pm && mdTruthy md && e.embedOk)) ∈
        (fallbackCopy e name pm md st).2.outputs ∧
      warnCount st.logs + 1 ≤ warnCount (fallbackCopy e name pm md st).2.logs) ∧
    (e.copyOk = false → (fallbackCopy e name pm md st).1 = false) := by
  constructor
  · intro hcopy
    simp only [fallbackCopy, hcopy, if_true]
    split_ifs with h1 h2 <;>
      refine ⟨by simp, by simp [logAdd, recordOutput],
        by simp [logAdd, recordOutput, warnCount, List.count_append]⟩
  · intro hcopy
    simp [fallbackCopy, hcopy]

theorem tryAttempts_all_fail (e : MosaicEnv) (name : List Char) (pm : Bool) (md : JsonObj)
    (hfail : ∀ k, e.attemptOk k = false) :
    ∀ (r attempt : Nat) (st : MState),
      (e.copyOk = true →
        (tryAttempts e name pm md attempt r st).1 = true ∧
        (name, OutputKind.copied (pm && mdTruthy md && e.embedOk)) ∈
          (tryAttempts e name pm md attempt r st).2.outputs ∧
        warnCount st.logs + r + 1 ≤
          warnCount (tryAttempts e name pm md attempt r st).2.logs) ∧
      (e.copyOk = false → (tryAttempts e name pm md attempt r st).1 = false) := by
  intro r
  induction r with
  | zero =>
    intro attempt st
    rw [show tryAttempts e name pm md attempt 0 st = fallbackCopy e name pm md st from rfl]
    have h := fallbackCopy_spec e name pm md st
    exact ⟨fun hc => ⟨(h.1 hc).1, (h.1 hc).2.1, by have := (h.1 hc).2.2; omega⟩, h.2⟩
  | succ r ih =>
    intro attempt st
    rw [tryAttempts]
    rw [process_image_fail e name pm md _ (hfail _)]
    simp only [Bool.false_eq_true, if_false]
    have hkey := ih (attempt + 1)
      (logAdd ⟨(if attempt > 0 then logAdd st .warn else st).calls + 1,
        (if attempt > 0 then logAdd st .warn else st).logs ++ [.info, .error],
        (if attempt > 0 then logAdd st .warn else st).progressEvents,
        (if attempt > 0 then logAdd st .warn else st).outputs⟩ .warn)
    have hcnt : warnCount st.logs + 1 ≤
        warnCount (logAdd (⟨(if attempt > 0 then logAdd st .warn else st).calls + 1,
          (if attempt > 0 then logAdd st .warn else st).logs ++ [.info, .error],
          (if attempt > 0 then logAdd st .warn else st).progressEvents,
          (if attempt > 0 then logAdd st .warn else st).outputs⟩ : MState) .warn).logs := by
      split <;> simp [logAdd, warnCount, List.count_append]
    refine ⟨fun hc => ⟨(hkey.1 hc).1, (hkey.1 hc).2.1, ?_⟩, hkey.2⟩
    have := (hkey.1 hc).2.2
    omega

/-- C3: on an existing input, when every transform attempt fails,
`process_image_with_retry` falls back to copying the original input
verbatim to the output path (the copied output carries the supplied
metadata when embedding succeeds), reports overall success, and emits at
least one WARN per failed attempt plus one WARN for the fallback
(`max_retries + 1` WARNs in total); it reports failure only when the
fallback copy itself fails. -/
theorem c3_retry_fallback (e : MosaicEnv) (name : List Char) (md : JsonObj)
    (max_retries : Nat) (st : MState) (hfail : ∀ k, e.attemptOk k = false) :
    (e.copyOk = true →
      (process_image_with_retry e true name true md max_retries st).1 = true ∧
      (name, OutputKind.copied (mdTruthy md && e.embedOk)) ∈
        (process_image_with_retry e true name true md max_retries st).2.outputs ∧
      warnCount st.logs + max_retries + 1 ≤
        warnCount (process_image_with_retry e true name true md max_retries st).2.logs) ∧
    (e.copyOk = false →
      (process_image_with_retry e true name true md max_retries st).1 = false) := by
  have h := tryAttempts_all_fail e name true md hfail max_retries 0 st
  rw [show process_image_with_retry e true name true md max_retries st =
      tryAttempts e name true md 0 max_retries st from rfl] at *
  simpa [Bool.true_and] using h

/-- Witness for `c3_retry_fallback`: with a service that fails every
attempt, the default two-retry transform still reports success when the
copy fallback works, and failure when the copy itself fails. -/
theorem c3_retry_fallback_witness :
    (process_image_with_retry failEnv true "a.png".data true mdEx 2 st0).1 = true ∧
    (process_image_with_retry failEnvNoCopy true "a.png".data true mdEx 2 st0).1 = false := by
  have h1 := c3_retry_fallback failEnv "a.png".data mdEx 2 st0 (fun _ => rfl)
  have h2 := c3_retry_fallback failEnvNoCopy "a.png".data mdEx 2 st0 (fun _ => rfl)
  exact ⟨(h1.1 rfl).1, h2.2 rfl⟩

end Organizer
